import Mathlib

/-!
Shallow embedding of the vector_lib 4-lane vector / quaternion / matrix
library (src/vector/vector_sse3.h, quaternion_base.h, quaternion_sse2.h,
matrix_base.h).  A lane is modelled as an element of a commutative ring
(instantiated at ℚ or ℝ in the theorems); the SSE intrinsics
_mm_shuffle_ps, _mm_addsub_ps, _mm_sqrt_ss, _mm_rsqrt_ps are embedded by
their lane semantics, with the scalar square-root / reciprocal-square-root
hardware primitives abstracted as explicit function parameters.
-/

namespace VectorLib

/-- A 4-lane value: the `vector_t` / `quaternion_t` type (lanes x, y, z, w). -/
structure Vec4 (α : Type) where
  x : α
  y : α
  z : α
  w : α
deriving DecidableEq

/-- Lane extraction by 2-bit index, lane 0 = x, 1 = y, 2 = z, 3 = w. -/
def Vec4.lane {α : Type} (v : Vec4 α) (i : Fin 4) : α :=
  match i.val with
  | 0 => v.x
  | 1 => v.y
  | 2 => v.z
  | _ => v.w

/-- A shuffle mask: four 2-bit lane selectors, one per output lane.
Modelled from the spec: the `VECTOR_MASK_*` macros are defined in a repo
header absent from src/; the spec's design notes describe them as named
lane-permutation patterns, and the source's own variable naming
(`v0yzx = vector_shuffle(v0, VECTOR_MASK_YZXW)` in `vector_cross3`, and the
splice structure of `quaternion_conjugate`) fixes the convention: mask
`ABCD` selects source lane A into output lane 0, B into 1, C into 2,
D into 3. -/
structure Mask where
  m0 : Fin 4
  m1 : Fin 4
  m2 : Fin 4
  m3 : Fin 4

def VECTOR_MASK_XXXX : Mask := ⟨0, 0, 0, 0⟩
def VECTOR_MASK_YYYY : Mask := ⟨1, 1, 1, 1⟩
def VECTOR_MASK_ZZZZ : Mask := ⟨2, 2, 2, 2⟩
def VECTOR_MASK_WWWW : Mask := ⟨3, 3, 3, 3⟩
def VECTOR_MASK_YZXW : Mask := ⟨1, 2, 0, 3⟩
def VECTOR_MASK_ZXYW : Mask := ⟨2, 0, 1, 3⟩
def VECTOR_MASK_ZZWW : Mask := ⟨2, 2, 3, 3⟩
def VECTOR_MASK_XYXZ : Mask := ⟨0, 1, 0, 2⟩
def VECTOR_MASK_XYXW : Mask := ⟨0, 1, 0, 3⟩
def VECTOR_MASK_YXWZ : Mask := ⟨1, 0, 3, 2⟩
def VECTOR_MASK_ZWXY : Mask := ⟨2, 3, 0, 1⟩
def VECTOR_MASK_YWXZ : Mask := ⟨1, 3, 0, 2⟩
def VECTOR_MASK_YXZW : Mask := ⟨1, 0, 2, 3⟩
def VECTOR_MASK_ZXWY : Mask := ⟨2, 0, 3, 1⟩
def VECTOR_MASK_WYXZ : Mask := ⟨3, 1, 0, 2⟩
def VECTOR_MASK_XYWZ : Mask := ⟨0, 1, 3, 2⟩

variable {α : Type}

/-- `_mm_shuffle_ps(a, b, mask)`: output lanes 0,1 select from `a`,
lanes 2,3 select from `b`. -/
def mm_shuffle_ps (a b : Vec4 α) (m : Mask) : Vec4 α :=
  ⟨a.lane m.m0, a.lane m.m1, b.lane m.m2, b.lane m.m3⟩

/-- The macro form of `vector_shuffle(v, mask)` in vector_sse3.h:
`_mm_shuffle_ps(v, v, mask)` with a compile-time-constant mask. -/
def vector_shuffle (v : Vec4 α) (m : Mask) : Vec4 α :=
  mm_shuffle_ps v v m

/-- Result of a defensive operation that raises a debug assertion:
`assertionFailed` records that `FOUNDATION_ASSERT_FAIL` fired, `value` is
the returned value. -/
structure AssertedVec4 (α : Type) where
  assertionFailed : Bool
  value : Vec4 α
deriving DecidableEq

/-- The hidden function form of `vector_shuffle` in vector_sse3.h, reached
only when the mask is not a compile-time constant: it executes
`FOUNDATION_ASSERT_FAIL("Unreachable code")` and returns the input vector
unchanged (the `_mm_shuffle_ps` line in its body is commented out). -/
def vector_shuffle_fn (v : Vec4 α) (_mask : ℕ) : AssertedVec4 α :=
  ⟨true, v⟩

section Ring
variable [CommRing α]

/-- `vector(x, y, z, w)` constructor (`_mm_setr_ps`). -/
def vector (x y z w : α) : Vec4 α := ⟨x, y, z, w⟩

/-- `vector_zero` (`_mm_setzero_ps`). -/
def vector_zero : Vec4 α := ⟨0, 0, 0, 0⟩

/-- `vector_uniform` (`_mm_set_ps1`). -/
def vector_uniform (s : α) : Vec4 α := ⟨s, s, s, s⟩

/-- `_mm_mul_ps`: lane-wise product. -/
def mm_mul_ps (a b : Vec4 α) : Vec4 α :=
  ⟨a.x * b.x, a.y * b.y, a.z * b.z, a.w * b.w⟩

/-- `_mm_add_ps`: lane-wise sum. -/
def mm_add_ps (a b : Vec4 α) : Vec4 α :=
  ⟨a.x + b.x, a.y + b.y, a.z + b.z, a.w + b.w⟩

/-- `_mm_sub_ps`: lane-wise difference. -/
def mm_sub_ps (a b : Vec4 α) : Vec4 α :=
  ⟨a.x - b.x, a.y - b.y, a.z - b.z, a.w - b.w⟩

/-- `_mm_addsub_ps`: subtract in even lanes (0, 2), add in odd lanes (1, 3). -/
def mm_addsub_ps (a b : Vec4 α) : Vec4 α :=
  ⟨a.x - b.x, a.y + b.y, a.z - b.z, a.w + b.w⟩

/-- `_mm_sqrt_ss(a)`: square root of lane 0 only, lanes 1-3 copied from `a`
unchanged; the hardware scalar square root is abstracted as the function
parameter `s`. -/
def mm_sqrt_ss (s : α → α) (a : Vec4 α) : Vec4 α :=
  ⟨s a.x, a.y, a.z, a.w⟩

/-- `_mm_rsqrt_ps(a)`: lane-wise approximate reciprocal square root, the
hardware primitive abstracted as the function parameter `r`. -/
def mm_rsqrt_ps (r : α → α) (a : Vec4 α) : Vec4 α :=
  ⟨r a.x, r a.y, r a.z, r a.w⟩

/-- `vector_mul` from vector_sse3.h. -/
def vector_mul (v0 v1 : Vec4 α) : Vec4 α := mm_mul_ps v0 v1

/-- `vector_add` from vector_sse3.h. -/
def vector_add (v0 v1 : Vec4 α) : Vec4 α := mm_add_ps v0 v1

/-- `vector_sub` from vector_sse3.h. -/
def vector_sub (v0 v1 : Vec4 α) : Vec4 α := mm_sub_ps v0 v1

/-- `vector_neg` from vector_sse3.h: `0 - v` lane-wise. -/
def vector_neg (v : Vec4 α) : Vec4 α := mm_sub_ps vector_zero v

/-- `vector_scale` from vector_sse3.h: lane-wise multiply by broadcast scalar. -/
def vector_scale (v : Vec4 α) (s : α) : Vec4 α :=
  mm_mul_ps v (vector_uniform s)

/-- `vector_dot` from vector_sse3.h: 4-lane dot product assembled from the
lane-wise product by broadcast shuffles, result broadcast into all lanes. -/
def vector_dot (v0 v1 : Vec4 α) : Vec4 α :=
  let r := mm_mul_ps v0 v1
  mm_add_ps
    (mm_add_ps (vector_shuffle r VECTOR_MASK_XXXX) (vector_shuffle r VECTOR_MASK_YYYY))
    (mm_add_ps (vector_shuffle r VECTOR_MASK_ZZZZ) (vector_shuffle r VECTOR_MASK_WWWW))

/-- `vector_dot3` from vector_sse3.h: 3-lane dot product, broadcast. -/
def vector_dot3 (v0 v1 : Vec4 α) : Vec4 α :=
  let r := mm_mul_ps v0 v1
  mm_add_ps
    (mm_add_ps (vector_shuffle r VECTOR_MASK_XXXX) (vector_shuffle r VECTOR_MASK_YYYY))
    (vector_shuffle r VECTOR_MASK_ZZZZ)

/-- `vector_cross3` from vector_sse3.h: cross product via yzx/zxy lane
permutations. -/
def vector_cross3 (v0 v1 : Vec4 α) : Vec4 α :=
  let v0yzx := vector_shuffle v0 VECTOR_MASK_YZXW
  let v1yzx := vector_shuffle v1 VECTOR_MASK_YZXW
  let v0zxy := vector_shuffle v0 VECTOR_MASK_ZXYW
  let v1zxy := vector_shuffle v1 VECTOR_MASK_ZXYW
  vector_sub (vector_mul v0yzx v1zxy) (vector_mul v0zxy v1yzx)

/-- `vector_length_sqr` from vector_sse3.h: `vector_dot(v, v)`. -/
def vector_length_sqr (v : Vec4 α) : Vec4 α := vector_dot v v

/-- `vector_length` from vector_sse3.h: `_mm_sqrt_ss(vector_length_sqr(v))`,
with the hardware scalar square root abstracted as `s`. -/
def vector_length (s : α → α) (v : Vec4 α) : Vec4 α :=
  mm_sqrt_ss s (vector_length_sqr v)

/-- `vector_length3_sqr` from vector_sse3.h: `vector_dot3(v, v)`. -/
def vector_length3_sqr (v : Vec4 α) : Vec4 α := vector_dot3 v v

/-- `vector_length3` from vector_sse3.h: `_mm_sqrt_ss(vector_length3_sqr(v))`. -/
def vector_length3 (s : α → α) (v : Vec4 α) : Vec4 α :=
  mm_sqrt_ss s (vector_length3_sqr v)

/-- `vector_normalize3` from vector_sse3.h: scale by the lane-wise
reciprocal square root of the broadcast 3-lane dot, then splice the input's
w lane back via two `_mm_shuffle_ps`. -/
def vector_normalize3 (rsqrt : α → α) (v : Vec4 α) : Vec4 α :=
  let norm := vector_mul v (mm_rsqrt_ps rsqrt (vector_dot3 v v))
  let splice := mm_shuffle_ps norm v VECTOR_MASK_ZZWW
  mm_shuffle_ps norm splice VECTOR_MASK_XYXW

/-- `vector_muladd(v0, v1, v2) = v0 * v1 + v2`.
Modelled from the spec: `vector_muladd` is called by the SSE2
`quaternion_rotate` but its definition lives in a vector header absent from
src/; it is the lane-wise fused multiply-add, consistent with its name and
with the derivation comments of `quaternion_rotate` (spec section 4.2:
result accumulates `q*dot + v1*q.w - v2` from vector products and sums). -/
def vector_muladd (v0 v1 v2 : Vec4 α) : Vec4 α :=
  vector_add (vector_mul v0 v1) v2

/-- `quaternion_identity` from quaternion_base.h: loads (0, 0, 0, 1). -/
def quaternion_identity : Vec4 α := ⟨0, 0, 0, 1⟩

/-- Generic `quaternion_conjugate` from quaternion_base.h:
`vector(-q.x, -q.y, -q.z, q.w)`. -/
def quaternion_conjugate (q : Vec4 α) : Vec4 α :=
  vector (-q.x) (-q.y) (-q.z) q.w

/-- SSE2 `quaternion_conjugate` from quaternion_sse2.h: negate all lanes,
then splice the original w lane back with two `_mm_shuffle_ps`. -/
def quaternion_conjugate_sse2 (q : Vec4 α) : Vec4 α :=
  let qneg := vector_neg q
  let splice := mm_shuffle_ps qneg q VECTOR_MASK_ZZWW
  mm_shuffle_ps qneg splice VECTOR_MASK_XYXZ

/-- `quaternion_neg` from quaternion_base.h: `vector_neg(q)`. -/
def quaternion_neg (q : Vec4 α) : Vec4 α := vector_neg q

/-- Generic `quaternion_mul` from quaternion_base.h, with its exact sign
pattern. -/
def quaternion_mul (q0 q1 : Vec4 α) : Vec4 α :=
  vector
    (q1.w * q0.x + q1.x * q0.w + q1.y * q0.z - q1.z * q0.y)
    (q1.w * q0.y - q1.x * q0.z + q1.y * q0.w + q1.z * q0.x)
    (q1.w * q0.z + q1.x * q0.y - q1.y * q0.x + q1.z * q0.w)
    (q1.w * q0.w - q1.x * q0.x - q1.y * q0.y - q1.z * q0.z)

/-- SSE2 `quaternion_mul` from quaternion_sse2.h: the shuffle / addsub
chain, transcribed instruction by instruction. -/
def quaternion_mul_sse2 (q0 q1 : Vec4 α) : Vec4 α :=
  let q0_wwww := vector_shuffle q0 VECTOR_MASK_WWWW
  let q1_yxwz := vector_shuffle q1 VECTOR_MASK_YXWZ
  let q0_xxxx := vector_shuffle q0 VECTOR_MASK_XXXX
  let q1_zwxy := vector_shuffle q1 VECTOR_MASK_ZWXY
  let q0_yyyy := vector_shuffle q0 VECTOR_MASK_YYYY
  let q1_ywxz := vector_shuffle q1 VECTOR_MASK_YWXZ
  let q0w_q1yxzw := mm_mul_ps q0_wwww q1_yxwz
  let q0x_q1zwxy := mm_mul_ps q0_xxxx q1_zwxy
  let q0y_q1ywxz := mm_mul_ps q0_yyyy q1_ywxz
  let q0_zzzz := vector_shuffle q0 VECTOR_MASK_ZZZZ
  let q1_yxzw := vector_shuffle q1 VECTOR_MASK_YXZW
  let q0z_q1yxzw := mm_mul_ps q0_zzzz q1_yxzw
  let e1 := mm_addsub_ps q0w_q1yxzw q0x_q1zwxy
  let e2 := vector_shuffle e1 VECTOR_MASK_ZXWY
  let e3 := mm_addsub_ps e2 q0y_q1ywxz
  let e4 := vector_shuffle e3 VECTOR_MASK_WYXZ
  let e5 := mm_addsub_ps e4 q0z_q1yxzw
  vector_shuffle e5 VECTOR_MASK_XYWZ

/-- Generic `quaternion_rotate` from quaternion_base.h: double cross
product, with the x/y/z lanes of `v * q.w` accumulated into `v1`
component-wise and the literal 1 written into the result w lane. -/
def quaternion_rotate (q v : Vec4 α) : Vec4 α :=
  let v1 := vector_cross3 q v
  let v1' : Vec4 α := ⟨v1.x + v.x * q.w, v1.y + v.y * q.w, v1.z + v.z * q.w, v1.w⟩
  let v2 := vector_cross3 v1' q
  let dot := q.x * v.x + q.y * v.y + q.z * v.z
  ⟨q.x * dot + v1'.x * q.w - v2.x,
   q.y * dot + v1'.y * q.w - v2.y,
   q.z * dot + v1'.z * q.w - v2.z,
   1⟩

/-- SSE2 `quaternion_rotate` from quaternion_sse2.h: note it uses the full
4-lane `vector_dot` and never stores 1 in the result w lane. -/
def quaternion_rotate_sse2 (q v : Vec4 α) : Vec4 α :=
  let v1 := vector_cross3 q v
  let qw := vector_shuffle q VECTOR_MASK_WWWW
  let v2 := vector_muladd v qw v1
  let v3 := vector_cross3 v2 q
  let dot := vector_dot q v
  let v4 := vector_muladd v2 qw (vector_neg v3)
  vector_muladd q dot v4

/-- The quaternion product formula exactly as the spec states it
(`x = w1x0 + x1w0 + y1z0 - z1y0`, and so on); the reference against which
the implementations are compared. -/
def quaternion_mul_formula (q0 q1 : Vec4 α) : Vec4 α :=
  ⟨q1.w * q0.x + q1.x * q0.w + q1.y * q0.z - q1.z * q0.y,
   q1.w * q0.y - q1.x * q0.z + q1.y * q0.w + q1.z * q0.x,
   q1.w * q0.z + q1.x * q0.y - q1.y * q0.x + q1.z * q0.w,
   q1.w * q0.w - q1.x * q0.x - q1.y * q0.y - q1.z * q0.z⟩

/-- The rotation formula exactly as the spec states it:
`v1 = cross3(q,v) + v*q.w`, `v2 = cross3(v1,q)`,
`dot = q.x*v.x + q.y*v.y + q.z*v.z`, result `q*dot + v1*q.w - v2` with the
w lane set to 1; the reference against which the implementations are
compared. -/
def quaternion_rotate_formula (q v : Vec4 α) : Vec4 α :=
  let v1 := vector_add (vector_cross3 q v) (vector_scale v q.w)
  let v2 := vector_cross3 v1 q
  let dot := q.x * v.x + q.y * v.y + q.z * v.z
  ⟨q.x * dot + v1.x * q.w - v2.x,
   q.y * dot + v1.y * q.w - v2.y,
   q.z * dot + v1.z * q.w - v2.z,
   1⟩

end Ring

/-- Generic `quaternion_slerp` from quaternion_base.h over ℚ, with the
foundation-library transcendental helpers `math_acos`, `math_sin`,
`math_realzero` and the constant `REAL_PI` abstracted as parameters.  The
tail shared by the two angle branches (the `math_realzero` early return
followed by the sine-weighted blend) is `slerpFinish`. -/
def slerpFinish (m_sin : ℚ → ℚ) (m_realzero : ℚ → Bool) (angle : ℚ)
    (q0 qd : Vec4 ℚ) (factor : ℚ) : Vec4 ℚ :=
  if m_realzero angle then qd
  else
    let sinval := m_sin angle
    let invsin := 1 / sinval
    let c1 := m_sin ((1 - factor) * angle) * invsin
    let c2 := m_sin (factor * angle) * invsin
    vector_add (vector_scale q0 c1) (vector_scale qd c2)

def quaternion_slerp (m_acos m_sin : ℚ → ℚ) (m_realzero : ℚ → Bool)
    (real_pi : ℚ) (q0 q1 : Vec4 ℚ) (factor : ℚ) : Vec4 ℚ :=
  let cosval0 := (vector_dot q0 q1).x
  let qd := if cosval0 < 0 then quaternion_neg q1 else q1
  let cosval := if cosval0 < 0 then (vector_dot q0 (quaternion_neg q1)).x else cosval0
  if -1 < cosval then
    if cosval < 1 then
      slerpFinish m_sin m_realzero (m_acos cosval) q0 qd factor
    else qd
  else
    slerpFinish m_sin m_realzero real_pi q0 qd factor

/-- The corrected interpolation target `qd` of `quaternion_slerp`: `q1`
negated when `dot(q0, q1) < 0` (shortest-path correction). -/
def slerp_qd (q0 q1 : Vec4 ℚ) : Vec4 ℚ :=
  if (vector_dot q0 q1).x < 0 then quaternion_neg q1 else q1

/-- The corrected cosine of `quaternion_slerp`: when the initial dot is
negative the source recomputes `cosval = vector_dot(q0, qd).x` with
`qd = quaternion_neg(q1)`, otherwise it keeps the initial dot. -/
def slerp_cosd (q0 q1 : Vec4 ℚ) : ℚ :=
  if (vector_dot q0 q1).x < 0 then (vector_dot q0 (quaternion_neg q1)).x
  else (vector_dot q0 q1).x

/-- A 4x4 row-major matrix: `matrix_t`, four `Vec4` rows. -/
structure Mat4 (α : Type) where
  row0 : Vec4 α
  row1 : Vec4 α
  row2 : Vec4 α
  row3 : Vec4 α
deriving DecidableEq

/-- Row access `m.row[r]`. -/
def Mat4.row {α : Type} (m : Mat4 α) (r : Fin 4) : Vec4 α :=
  match r.val with
  | 0 => m.row0
  | 1 => m.row1
  | 2 => m.row2
  | _ => m.row3

/-- Element access `m.frow[r][c]`. -/
def Mat4.frow {α : Type} (m : Mat4 α) (r c : Fin 4) : α :=
  (m.row r).lane c

/-- Build a matrix from an element function (the unrolled row/col loops of
matrix_base.h). -/
def Mat4.ofEntry {α : Type} (f : Fin 4 → Fin 4 → α) : Mat4 α :=
  ⟨⟨f 0 0, f 0 1, f 0 2, f 0 3⟩,
   ⟨f 1 0, f 1 1, f 1 2, f 1 3⟩,
   ⟨f 2 0, f 2 1, f 2 2, f 2 3⟩,
   ⟨f 3 0, f 3 1, f 3 2, f 3 3⟩⟩

section MatrixRing
variable [CommRing α]

/-- `matrix_identity` from matrix_base.h: loads the canonical identity rows. -/
def matrix_identity : Mat4 α :=
  ⟨⟨1, 0, 0, 0⟩, ⟨0, 1, 0, 0⟩, ⟨0, 0, 1, 0⟩, ⟨0, 0, 0, 1⟩⟩

/-- `matrix_mul` from matrix_base.h: row-by-column product,
`r.frow[row][col] = Σ_k m0.frow[row][k] * m1.frow[k][col]` with the sum
written out over k = 0..3 as in the source. -/
def matrix_mul (m0 m1 : Mat4 α) : Mat4 α :=
  Mat4.ofEntry fun r c =>
    m0.frow r 0 * m1.frow 0 c +
    m0.frow r 1 * m1.frow 1 c +
    m0.frow r 2 * m1.frow 2 c +
    m0.frow r 3 * m1.frow 3 c

end MatrixRing

end VectorLib

namespace VectorLib

/-! Helper lemmas: lane and row extraction at literal indices. -/

@[simp]
theorem Vec4.lane_zero {α : Type} (v : Vec4 α) : v.lane 0 = v.x := rfl

@[simp]
theorem Vec4.lane_one {α : Type} (v : Vec4 α) : v.lane 1 = v.y := rfl

@[simp]
theorem Vec4.lane_two {α : Type} (v : Vec4 α) : v.lane 2 = v.z := rfl

@[simp]
theorem Vec4.lane_three {α : Type} (v : Vec4 α) : v.lane 3 = v.w := rfl

@[simp]
theorem Mat4.row_zero {α : Type} (m : Mat4 α) : m.row 0 = m.row0 := rfl

@[simp]
theorem Mat4.row_one {α : Type} (m : Mat4 α) : m.row 1 = m.row1 := rfl

@[simp]
theorem Mat4.row_two {α : Type} (m : Mat4 α) : m.row 2 = m.row2 := rfl

@[simp]
theorem Mat4.row_three {α : Type} (m : Mat4 α) : m.row 3 = m.row3 := rfl

/-- C10: in the SSE3 backend the w lane of `vector_cross3(v0, v1)` is
exactly 0 for all inputs: the yzx/zxy permutations both keep w in place, so
the w lane of the result is `v0.w * v1.w - v0.w * v1.w` (in the exact-lane
model, where every lane value is finite, this cancels to 0). -/
theorem c10_cross3_w_lane_zero (α : Type) [CommRing α] (v0 v1 : Vec4 α) :
    (vector_cross3 v0 v1).w = 0 := by
  obtain ⟨a, b, c, d⟩ := v0
  obtain ⟨e, f, g, h⟩ := v1
  simp [vector_cross3, vector_shuffle, mm_shuffle_ps, vector_sub, vector_mul,
    mm_sub_ps, mm_mul_ps, VECTOR_MASK_YZXW, VECTOR_MASK_ZXYW]

/-- C6: `vector_normalize3` leaves the w lane of the result exactly equal
to the w lane of the input, for every reciprocal-square-root primitive and
every input vector: the final two shuffles splice the input's own w lane
back into the scaled result. -/
theorem c6_normalize3_preserves_w (α : Type) [CommRing α]
    (rsqrt : α → α) (v : Vec4 α) :
    (vector_normalize3 rsqrt v).w = v.w := rfl

/-- C7: conjugation is an involution in both the generic implementation
(negate x, y, z, keep w) and the SSE2 shuffle-based implementation
(negate all four lanes, then splice the original w back): conjugating
twice returns the argument exactly. -/
theorem c7_conjugate_involution (α : Type) [CommRing α] (q : Vec4 α) :
    quaternion_conjugate (quaternion_conjugate q) = q ∧
    quaternion_conjugate_sse2 (quaternion_conjugate_sse2 q) = q := by
  obtain ⟨a, b, c, d⟩ := q
  constructor
  · simp [quaternion_conjugate, vector]
  · simp [quaternion_conjugate_sse2, vector_neg, mm_sub_ps, vector_zero,
      mm_shuffle_ps, VECTOR_MASK_ZZWW, VECTOR_MASK_XYXZ]

/-- C8: the function form of `vector_shuffle` (reached only with a
non-compile-time-constant mask) raises the debug assertion and returns the
input vector unchanged, for every vector and every mask value. -/
theorem c8_runtime_shuffle_asserts_and_returns_input (α : Type)
    (v : Vec4 α) (mask : ℕ) :
    (vector_shuffle_fn v mask).assertionFailed = true ∧
    (vector_shuffle_fn v mask).value = v :=
  ⟨rfl, rfl⟩

/-- C9: `quaternion_identity() = (0,0,0,1)` is a two-sided identity of the
generic `quaternion_mul`: multiplying by it on either side returns the
other argument exactly. -/
theorem c9_quaternion_identity_two_sided (α : Type) [CommRing α] (q : Vec4 α) :
    quaternion_mul q quaternion_identity = q ∧
    quaternion_mul quaternion_identity q = q := by
  obtain ⟨a, b, c, d⟩ := q
  constructor <;>
    simp [quaternion_mul, quaternion_identity, vector]

/-- C5: the identity matrix is a two-sided identity of the row-by-column
product `matrix_mul`. -/
theorem c5_matrix_identity_two_sided (α : Type) [CommRing α] (m : Mat4 α) :
    matrix_mul matrix_identity m = m ∧ matrix_mul m matrix_identity = m := by
  obtain ⟨⟨a00, a01, a02, a03⟩, ⟨a10, a11, a12, a13⟩,
         ⟨a20, a21, a22, a23⟩, ⟨a30, a31, a32, a33⟩⟩ := m
  constructor <;>
    simp [matrix_mul, matrix_identity, Mat4.ofEntry, Mat4.frow]


/-- C1: the generic `quaternion_mul` reproduces the spec's Hamilton-product
sign pattern exactly for all inputs, but the SSE2 shuffle/addsub
implementation does not: it multiplies the operands in the opposite order
(it equals the formula with `q0` and `q1` exchanged), and at
`q0 = (1,0,0,0)`, `q1 = (0,1,0,0)` it returns `(0,0,1,0)` where the spec's
pattern (and the generic implementation) give `(0,0,-1,0)`. -/
theorem c1_quaternion_mul_sign_pattern :
    (∀ (α : Type) [CommRing α] (q0 q1 : Vec4 α),
        quaternion_mul q0 q1 = quaternion_mul_formula q0 q1) ∧
    (∀ (α : Type) [CommRing α] (q0 q1 : Vec4 α),
        quaternion_mul_sse2 q0 q1 = quaternion_mul_formula q1 q0) ∧
    quaternion_mul_sse2 (⟨1, 0, 0, 0⟩ : Vec4 ℤ) ⟨0, 1, 0, 0⟩ = ⟨0, 0, 1, 0⟩ ∧
    quaternion_mul_sse2 (⟨1, 0, 0, 0⟩ : Vec4 ℤ) ⟨0, 1, 0, 0⟩ ≠
      quaternion_mul_formula (⟨1, 0, 0, 0⟩ : Vec4 ℤ) ⟨0, 1, 0, 0⟩ := by
  refine ⟨fun α _ q0 q1 => rfl, ?_, by decide, by decide⟩
  intro α _ q0 q1
  obtain ⟨a, b, c, d⟩ := q0
  obtain ⟨e, f, g, h⟩ := q1
  simp only [quaternion_mul_sse2, quaternion_mul_formula, vector_shuffle, mm_shuffle_ps,
    mm_mul_ps, mm_addsub_ps, VECTOR_MASK_WWWW, VECTOR_MASK_YXWZ, VECTOR_MASK_XXXX,
    VECTOR_MASK_ZWXY, VECTOR_MASK_YYYY, VECTOR_MASK_YWXZ, VECTOR_MASK_ZZZZ,
    VECTOR_MASK_YXZW, VECTOR_MASK_ZXWY, VECTOR_MASK_WYXZ, VECTOR_MASK_XYWZ,
    Vec4.lane_zero, Vec4.lane_one, Vec4.lane_two, Vec4.lane_three, Vec4.mk.injEq]

/-- C2 (amended): the generic `quaternion_rotate` returns exactly the
spec's formula (x, y, z from `q*dot + v1*q.w - v2` with the 3-lane dot,
w set to 1); the SSE2 implementation instead uses the full 4-lane dot
product (including the `q.w*v.w` term) in all lanes and leaves the w lane
as `q.w*dot4 + v.w*q.w²` rather than 1. -/
theorem c2_quaternion_rotate_impls (α : Type) [CommRing α] (q v : Vec4 α) :
    quaternion_rotate q v = quaternion_rotate_formula q v ∧
    quaternion_rotate_sse2 q v =
      ⟨q.x * (q.x * v.x + q.y * v.y + q.z * v.z + q.w * v.w) +
         (vector_add (vector_cross3 q v) (vector_scale v q.w)).x * q.w -
         (vector_cross3 (vector_add (vector_cross3 q v) (vector_scale v q.w)) q).x,
       q.y * (q.x * v.x + q.y * v.y + q.z * v.z + q.w * v.w) +
         (vector_add (vector_cross3 q v) (vector_scale v q.w)).y * q.w -
         (vector_cross3 (vector_add (vector_cross3 q v) (vector_scale v q.w)) q).y,
       q.z * (q.x * v.x + q.y * v.y + q.z * v.z + q.w * v.w) +
         (vector_add (vector_cross3 q v) (vector_scale v q.w)).z * q.w -
         (vector_cross3 (vector_add (vector_cross3 q v) (vector_scale v q.w)) q).z,
       q.w * (q.x * v.x + q.y * v.y + q.z * v.z + q.w * v.w) +
         v.w * (q.w * q.w)⟩ := by
  obtain ⟨a, b, c, d⟩ := q
  obtain ⟨e, f, g, h⟩ := v
  constructor
  · simp only [quaternion_rotate, quaternion_rotate_formula, vector_cross3, vector_add,
      vector_scale, vector_mul, vector_sub, vector_uniform, mm_mul_ps, mm_add_ps,
      mm_sub_ps, vector_shuffle, mm_shuffle_ps, VECTOR_MASK_YZXW, VECTOR_MASK_ZXYW,
      Vec4.lane_zero, Vec4.lane_one, Vec4.lane_two, Vec4.lane_three, Vec4.mk.injEq]
  · simp only [quaternion_rotate_sse2, vector_cross3, vector_add, vector_scale,
      vector_muladd, vector_neg, vector_zero, vector_mul, vector_sub, vector_uniform,
      vector_dot, mm_mul_ps, mm_add_ps, mm_sub_ps, vector_shuffle, mm_shuffle_ps,
      VECTOR_MASK_YZXW, VECTOR_MASK_ZXYW, VECTOR_MASK_WWWW, VECTOR_MASK_XXXX,
      VECTOR_MASK_YYYY, VECTOR_MASK_ZZZZ, Vec4.lane_zero, Vec4.lane_one, Vec4.lane_two, Vec4.lane_three, Vec4.mk.injEq]
    all_goals (refine ⟨?_, ?_, ?_, ?_⟩ <;> ring)

/-- C2 counterexample: at `q = (1,0,0,1)`, `v = (0,0,0,1)` the SSE2
`quaternion_rotate` returns `(1,0,0,2)` while the claimed formula gives
`(0,0,0,1)`; already the x lane differs. -/
theorem c2_counterexample :
    quaternion_rotate_sse2 (⟨1, 0, 0, 1⟩ : Vec4 ℤ) ⟨0, 0, 0, 1⟩ = ⟨1, 0, 0, 2⟩ ∧
    quaternion_rotate_formula (⟨1, 0, 0, 1⟩ : Vec4 ℤ) ⟨0, 0, 0, 1⟩ = ⟨0, 0, 0, 1⟩ ∧
    (quaternion_rotate_sse2 (⟨1, 0, 0, 1⟩ : Vec4 ℤ) ⟨0, 0, 0, 1⟩).x ≠
      (quaternion_rotate_formula (⟨1, 0, 0, 1⟩ : Vec4 ℤ) ⟨0, 0, 0, 1⟩).x := by
  refine ⟨by decide, by decide, by decide⟩

/-- C3 (amended): `vector_length_sqr` (and `vector_length3_sqr`) is a
broadcast of the squared length into all 4 lanes, but `vector_length`
(and `vector_length3`) applies the scalar square root (`_mm_sqrt_ss`) to
lane 0 only: lanes 1-3 of the result still hold the squared length, not
its square root. -/
theorem c3_length_lane_structure (α : Type) [CommRing α] (s : α → α) (v : Vec4 α) :
    vector_length_sqr v =
      vector_uniform (v.x * v.x + v.y * v.y + v.z * v.z + v.w * v.w) ∧
    vector_length s v =
      ⟨s (v.x * v.x + v.y * v.y + v.z * v.z + v.w * v.w),
       v.x * v.x + v.y * v.y + v.z * v.z + v.w * v.w,
       v.x * v.x + v.y * v.y + v.z * v.z + v.w * v.w,
       v.x * v.x + v.y * v.y + v.z * v.z + v.w * v.w⟩ ∧
    vector_length3_sqr v = vector_uniform (v.x * v.x + v.y * v.y + v.z * v.z) ∧
    vector_length3 s v =
      ⟨s (v.x * v.x + v.y * v.y + v.z * v.z),
       v.x * v.x + v.y * v.y + v.z * v.z,
       v.x * v.x + v.y * v.y + v.z * v.z,
       v.x * v.x + v.y * v.y + v.z * v.z⟩ := by
  obtain ⟨a, b, c, d⟩ := v
  have hsqr : vector_length_sqr (⟨a, b, c, d⟩ : Vec4 α) =
      vector_uniform (a * a + b * b + c * c + d * d) := by
    simp only [vector_length_sqr, vector_dot, vector_uniform, mm_mul_ps, mm_add_ps,
      vector_shuffle, mm_shuffle_ps, VECTOR_MASK_XXXX, VECTOR_MASK_YYYY,
      VECTOR_MASK_ZZZZ, VECTOR_MASK_WWWW, Vec4.lane_zero, Vec4.lane_one, Vec4.lane_two, Vec4.lane_three, Vec4.mk.injEq]
    all_goals (refine ⟨?_, ?_, ?_, ?_⟩ <;> ring)
  have hsqr3 : vector_length3_sqr (⟨a, b, c, d⟩ : Vec4 α) =
      vector_uniform (a * a + b * b + c * c) := by
    simp only [vector_length3_sqr, vector_dot3, vector_uniform, mm_mul_ps, mm_add_ps,
      vector_shuffle, mm_shuffle_ps, VECTOR_MASK_XXXX, VECTOR_MASK_YYYY,
      VECTOR_MASK_ZZZZ, Vec4.lane_zero, Vec4.lane_one, Vec4.lane_two, Vec4.lane_three, Vec4.mk.injEq]
  refine ⟨hsqr, ?_, hsqr3, ?_⟩
  · rw [vector_length, hsqr]; rfl
  · rw [vector_length3, hsqr3]; rfl

/-- C3 counterexample: at `v = (2,0,0,0)` over ℝ with the real square
root, lane y of `vector_length(v)` is 4 (the squared length), not
`sqrt 4 = 2`: the claim that every lane of `vector_length` is the square
root of the corresponding lane of `vector_length_sqr` fails. -/
theorem c3_counterexample :
    (vector_length Real.sqrt (⟨2, 0, 0, 0⟩ : Vec4 ℝ)).y ≠
      Real.sqrt ((vector_length_sqr (⟨2, 0, 0, 0⟩ : Vec4 ℝ)).y) := by
  have h4 : (vector_length_sqr (⟨2, 0, 0, 0⟩ : Vec4 ℝ)).y = 4 := by
    simp [vector_length_sqr, vector_dot, mm_mul_ps, mm_add_ps, vector_shuffle,
      mm_shuffle_ps, VECTOR_MASK_XXXX, VECTOR_MASK_YYYY, VECTOR_MASK_ZZZZ,
      VECTOR_MASK_WWWW]
    norm_num
  have hlen : (vector_length Real.sqrt (⟨2, 0, 0, 0⟩ : Vec4 ℝ)).y = 4 := by
    rw [vector_length]
    exact h4
  have hs : Real.sqrt ((vector_length_sqr (⟨2, 0, 0, 0⟩ : Vec4 ℝ)).y) = 2 := by
    rw [h4, show (4 : ℝ) = 2 ^ 2 by norm_num]
    exact Real.sqrt_sq (by norm_num)
  rw [hlen, hs]
  norm_num

/-- The x lane of a dot with a negated second argument is the negated dot. -/
theorem dot_x_neg (q0 q1 : Vec4 ℚ) :
    (vector_dot q0 (quaternion_neg q1)).x = -(vector_dot q0 q1).x := by
  obtain ⟨a, b, c, d⟩ := q0
  obtain ⟨e, f, g, h⟩ := q1
  simp [vector_dot, quaternion_neg, vector_neg, vector_zero, mm_mul_ps, mm_add_ps,
    mm_sub_ps, vector_shuffle, mm_shuffle_ps, VECTOR_MASK_XXXX, VECTOR_MASK_YYYY,
    VECTOR_MASK_ZZZZ, VECTOR_MASK_WWWW]
  ring

/-- `quaternion_slerp` unfolded in terms of the corrected target
`slerp_qd` and corrected cosine `slerp_cosd`. -/
theorem quaternion_slerp_eq (m_acos m_sin : ℚ → ℚ) (m_realzero : ℚ → Bool)
    (real_pi : ℚ) (q0 q1 : Vec4 ℚ) (t : ℚ) :
    quaternion_slerp m_acos m_sin m_realzero real_pi q0 q1 t =
      if -1 < slerp_cosd q0 q1 then
        if slerp_cosd q0 q1 < 1 then
          slerpFinish m_sin m_realzero (m_acos (slerp_cosd q0 q1)) q0 (slerp_qd q0 q1) t
        else slerp_qd q0 q1
      else slerpFinish m_sin m_realzero real_pi q0 (slerp_qd q0 q1) t := rfl

/-- C4: `quaternion_slerp` performs the shortest-path correction — the
target `qd` is `q1` negated exactly when `dot(q0,q1) < 0`, with the cosine
recomputed as the negated dot — and whenever the corrected cosine is at
least 1 it returns the corrected target unchanged for every factor `t`;
the `acos` parameter is consulted only when the corrected cosine lies
strictly between -1 and 1. -/
theorem c4_slerp_shortest_path (m_acos m_sin : ℚ → ℚ) (m_realzero : ℚ → Bool)
    (real_pi : ℚ) (q0 q1 : Vec4 ℚ) (t : ℚ) :
    ((vector_dot q0 q1).x < 0 →
        slerp_qd q0 q1 = quaternion_neg q1 ∧
        slerp_cosd q0 q1 = -(vector_dot q0 q1).x) ∧
    (0 ≤ (vector_dot q0 q1).x →
        slerp_qd q0 q1 = q1 ∧ slerp_cosd q0 q1 = (vector_dot q0 q1).x) ∧
    (1 ≤ slerp_cosd q0 q1 →
        quaternion_slerp m_acos m_sin m_realzero real_pi q0 q1 t = slerp_qd q0 q1) ∧
    (¬(-1 < slerp_cosd q0 q1 ∧ slerp_cosd q0 q1 < 1) →
        ∀ f : ℚ → ℚ,
          quaternion_slerp f m_sin m_realzero real_pi q0 q1 t =
            quaternion_slerp m_acos m_sin m_realzero real_pi q0 q1 t) := by
  refine ⟨?_, ?_, ?_, ?_⟩
  · intro h0
    rw [slerp_qd, if_pos h0, slerp_cosd, if_pos h0, dot_x_neg]
    exact ⟨rfl, rfl⟩
  · intro h0
    have h0' : ¬(vector_dot q0 q1).x < 0 := not_lt.mpr h0
    rw [slerp_qd, if_neg h0', slerp_cosd, if_neg h0']
    exact ⟨rfl, rfl⟩
  · intro h1
    rw [quaternion_slerp_eq, if_pos (by linarith : (-1 : ℚ) < slerp_cosd q0 q1),
      if_neg (by linarith : ¬slerp_cosd q0 q1 < 1)]
  · intro hout f
    rw [quaternion_slerp_eq, quaternion_slerp_eq]
    rcases not_and_or.mp hout with h | h
    · rw [if_neg h, if_neg h]
    · by_cases hgt : -1 < slerp_cosd q0 q1
      · rw [if_pos hgt, if_pos hgt, if_neg h, if_neg h]
      · rw [if_neg hgt, if_neg hgt]

/-- C4 witness: at `q0 = q1 = (0,0,0,1)` the corrected cosine is 1, and
`quaternion_slerp` (instantiated with arbitrary concrete transcendental
helpers) returns the corrected target unchanged. -/
theorem c4_witness :
    (1 : ℚ) ≤ slerp_cosd ⟨0, 0, 0, 1⟩ ⟨0, 0, 0, 1⟩ ∧
    quaternion_slerp id id (fun _ => false) 3 ⟨0, 0, 0, 1⟩ ⟨0, 0, 0, 1⟩ (1 / 2) =
      slerp_qd ⟨0, 0, 0, 1⟩ ⟨0, 0, 0, 1⟩ := by
  have hc : slerp_cosd (⟨0, 0, 0, 1⟩ : Vec4 ℚ) ⟨0, 0, 0, 1⟩ = 1 := by
    norm_num [slerp_cosd, vector_dot, mm_mul_ps, mm_add_ps, vector_shuffle,
      mm_shuffle_ps, VECTOR_MASK_XXXX, VECTOR_MASK_YYYY, VECTOR_MASK_ZZZZ,
      VECTOR_MASK_WWWW]
  exact ⟨le_of_eq hc.symm,
    (c4_slerp_shortest_path id id (fun _ => false) 3 ⟨0, 0, 0, 1⟩ ⟨0, 0, 0, 1⟩
      (1 / 2)).2.2.1 (le_of_eq hc.symm)⟩

end VectorLib
